import Mathlib

/-!
Shallow embedding of src/ccl_sqlite_jsonb.py, a decoder for the SQLite
jsonb binary JSON format, together with theorems settling the frozen
claims about it.

The source function `_read_jsonb(jsonb_data)` is embedded as
`SqliteJsonb.decodeOneF` (with an explicit fuel parameter standing for
the recursion, plus the wrapper `SqliteJsonb.decode_one` supplying
sufficient fuel) and the public `read_jsonb` as `SqliteJsonb.read_jsonb`.
Byte strings are `List Nat`; Python exceptions are the constructors of
`SqliteJsonb.PyErr`, one per raise site of the source.  Python slices
`b[i:j]` clamp to the available bytes, which is modelled by
`List.take`/`List.drop` (which clamp the same way).  All payload slices
`jsonb_data[ds+a : ds+k]` of the source are expressed relative to the
start of the payload: with `tail := jsonb_data.drop ds`,
`jsonb_data[ds:ds+size]` is `tail.take size`, `jsonb_data[ds:ds+2]` is
`tail.take 2` and `jsonb_data[ds+2:ds+size]` is `(tail.take size).drop 2`.
-/

namespace SqliteJsonb

/-- Byte strings of the source are lists of natural numbers. -/
abbrev Bytes := List Nat

/-- The decoded value tree.  Python returns None / bool / int / float /
str / list / dict; dicts preserve insertion order and may hold any
hashable key, hence keys are modelled as `Value` too.  A `float` value
stores the accepted ASCII literal: IEEE-754 arithmetic is not modelled
(no claim depends on the numeric value of a float). -/
inductive Value where
  | null
  | bool (b : Bool)
  | int (n : Int)
  | float (lit : String)
  | text (s : String)
  | array (xs : List Value)
  | object (entries : List (Value × Value))

/-- Python exceptions raised by the source, one constructor per raise
site.  `fuelOut` is the artefact of the fuel embedding and is proved
unreachable at sufficient fuel. -/
inductive PyErr where
  | fuelOut
  /-- ValueError, line 59: input buffer is empty. -/
  | emptyInput
  /-- IndexError reading `jsonb_data[1]`, line 66, when the buffer has one byte. -/
  | indexOutOfRange
  /-- struct.error unpacking a 2/4/8 byte size prefix, lines 69, 72, 75. -/
  | structError
  /-- ValueError, line 78: unreachable size selector branch. -/
  | unexpectedSize
  /-- ValueError, line 82: Null with non-zero size. -/
  | nullNonZeroSize
  /-- ValueError, lines 86 and 90: Bool with non-zero size. -/
  | boolNonZeroSize
  /-- UnicodeDecodeError from `.decode("ascii")`. -/
  | asciiDecodeError
  /-- ValueError from `int(...)`. -/
  | intParseError
  /-- ValueError from `float(...)`. -/
  | floatParseError
  /-- UnicodeDecodeError from `.decode("utf-8")`. -/
  | utf8DecodeError
  /-- NotImplementedError, lines 104 and 108: TextJ / Text5 records. -/
  | notImplemented
  /-- ValueError, line 132: object key with no room left for a value. -/
  | objectRanOut
  /-- TypeError: unhashable value used as a dict key (`key in result`). -/
  | unhashableKey
  /-- KeyError, line 136: key already in object. -/
  | duplicateKey
  /-- ValueError, line 141: reserved json type 0xD/0xE/0xF. -/
  | unexpectedType
deriving DecidableEq

/-- Big-endian value of a byte string, as computed by
`struct.unpack(">H" / ">I" / ">Q", ...)`. -/
def beBytes (l : Bytes) : Nat := l.foldl (fun acc x => acc * 256 + x) 0

/-- The `.decode("ascii")` of the source: succeeds iff every byte is
below 0x80, yielding the corresponding character string. -/
def asciiDecode (bs : Bytes) : Option String :=
  if bs.all (fun b => decide (b < 128)) then some (String.mk (bs.map Char.ofNat)) else none

/-- A UTF-8 continuation byte (0x80..0xBF). -/
def contByte (c : Nat) : Bool := decide (0x80 ≤ c ∧ c ≤ 0xBF)

/-- The strict UTF-8 decoder behind `.decode("utf-8")`: rejects overlong
encodings, surrogates and code points above U+10FFFF, as CPython does. -/
def utf8Chars : Bytes → Option (List Char)
  | [] => some []
  | b :: rest =>
    if b ≤ 0x7F then (utf8Chars rest).map (fun cs => Char.ofNat b :: cs)
    else if b < 0xC2 then none
    else if b ≤ 0xDF then
      match rest with
      | c1 :: rest2 =>
        if contByte c1 then
          (utf8Chars rest2).map (fun cs => Char.ofNat ((b - 0xC0) * 0x40 + (c1 - 0x80)) :: cs)
        else none
      | _ => none
    else if b ≤ 0xEF then
      match rest with
      | c1 :: c2 :: rest2 =>
        if (if b = 0xE0 then decide (0xA0 ≤ c1 ∧ c1 ≤ 0xBF)
            else if b = 0xED then decide (0x80 ≤ c1 ∧ c1 ≤ 0x9F)
            else contByte c1) && contByte c2 then
          (utf8Chars rest2).map
            (fun cs => Char.ofNat ((b - 0xE0) * 0x1000 + (c1 - 0x80) * 0x40 + (c2 - 0x80)) :: cs)
        else none
      | _ => none
    else if b ≤ 0xF4 then
      match rest with
      | c1 :: c2 :: c3 :: rest2 =>
        if (if b = 0xF0 then decide (0x90 ≤ c1 ∧ c1 ≤ 0xBF)
            else if b = 0xF4 then decide (0x80 ≤ c1 ∧ c1 ≤ 0x8F)
            else contByte c1) && contByte c2 && contByte c3 then
          (utf8Chars rest2).map
            (fun cs => Char.ofNat ((b - 0xF0) * 0x40000 + (c1 - 0x80) * 0x1000
              + (c2 - 0x80) * 0x40 + (c3 - 0x80)) :: cs)
        else none
      | _ => none
    else none

/-- The `.decode("utf-8")` of the source. -/
def utf8Decode (bs : Bytes) : Option String := (utf8Chars bs).map String.mk

/-- ASCII characters stripped by `int(str)` / `float(str)`: the Unicode
whitespace below 0x80 (tab, LF, VT, FF, CR, 0x1C..0x1F, space). -/
def pyWs (c : Char) : Bool :=
  decide (c.toNat = 32 ∨ c.toNat = 9 ∨ c.toNat = 10 ∨ c.toNat = 11 ∨ c.toNat = 12
    ∨ c.toNat = 13 ∨ (28 ≤ c.toNat ∧ c.toNat ≤ 31))

/-- Strip leading and trailing whitespace, as the numeric constructors do. -/
def stripPyWs (cs : List Char) : List Char :=
  ((cs.dropWhile pyWs).reverse.dropWhile pyWs).reverse

/-- Continue a decimal digit run; a single underscore is allowed only
between two digits (PEP 515), which is the rule of `int(str)`. -/
def decDigitsGo (acc : Nat) : List Char → Option Nat
  | [] => some acc
  | '_' :: c :: rest => if c.isDigit then decDigitsGo (acc * 10 + (c.toNat - 48)) rest else none
  | c :: rest => if c.isDigit then decDigitsGo (acc * 10 + (c.toNat - 48)) rest else none

/-- A nonempty decimal digit run with PEP 515 underscores, consuming the
whole input. -/
def decDigits : List Char → Option Nat
  | [] => none
  | c :: rest => if c.isDigit then decDigitsGo (c.toNat - 48) rest else none

/-- The body of `int(str)` after whitespace stripping: an optional sign
followed by a digit run. -/
def pyIntChars : List Char → Option Int
  | '+' :: rest => (decDigits rest).map (fun n => (n : Int))
  | '-' :: rest => (decDigits rest).map (fun n => -(n : Int))
  | cs => (decDigits cs).map (fun n => (n : Int))

/-- Models CPython `int(s)` on an ASCII string (the source, line 93 and
line 98, never feeds it anything besides an ASCII-decoded payload).  The
CPython per-call digit-count limit is a runtime configuration and is not
modelled. -/
def pyInt (s : String) : Option Int := pyIntChars (stripPyWs s.toList)

/-- An ASCII hexadecimal digit. -/
def isHexDigit (c : Char) : Bool :=
  c.isDigit || decide ('a' ≤ c ∧ c ≤ 'f') || decide ('A' ≤ c ∧ c ≤ 'F')

/-- Value of an ASCII hexadecimal digit. -/
def hexVal (c : Char) : Nat :=
  if c.isDigit then c.toNat - 48 else if decide ('a' ≤ c ∧ c ≤ 'f') then c.toNat - 87
  else c.toNat - 55

/-- Continue a hexadecimal digit run with PEP 515 underscores. -/
def hexDigitsGo (acc : Nat) : List Char → Option Nat
  | [] => some acc
  | '_' :: c :: rest => if isHexDigit c then hexDigitsGo (acc * 16 + hexVal c) rest else none
  | c :: rest => if isHexDigit c then hexDigitsGo (acc * 16 + hexVal c) rest else none

/-- A nonempty hexadecimal digit run with PEP 515 underscores. -/
def hexDigits : List Char → Option Nat
  | [] => none
  | c :: rest => if isHexDigit c then hexDigitsGo (hexVal c) rest else none

/-- After a 0x/0X base marker a single underscore may separate the marker
from the digits. -/
def hexAfterMarker : List Char → Option Nat
  | '_' :: r => hexDigits r
  | r => hexDigits r

/-- The digits of `int(s, 16)`: an optional 0x/0X marker then a hex run. -/
def hexBody : List Char → Option Nat
  | '0' :: 'x' :: rest => hexAfterMarker rest
  | '0' :: 'X' :: rest => hexAfterMarker rest
  | cs => hexDigits cs

/-- The body of `int(s, 16)` after whitespace stripping. -/
def pyIntHexChars : List Char → Option Int
  | '+' :: rest => (hexBody rest).map (fun n => (n : Int))
  | '-' :: rest => (hexBody rest).map (fun n => -(n : Int))
  | cs => (hexBody cs).map (fun n => (n : Int))

/-- Models CPython `int(s, 16)` as used at line 96 of the source. -/
def pyIntHex (s : String) : Option Int := pyIntHexChars (stripPyWs s.toList)

/-- Consume a maximal digit run with PEP 515 underscores, returning the
remainder of the input. -/
def digitRunGo : List Char → List Char
  | [] => []
  | '_' :: c :: rest => if c.isDigit then digitRunGo rest else '_' :: c :: rest
  | c :: rest => if c.isDigit then digitRunGo rest else c :: rest

/-- A digit run must start with a digit; returns the remainder. -/
def digitRun : List Char → Option (List Char)
  | [] => none
  | c :: rest => if c.isDigit then some (digitRunGo rest) else none

/-- The exponent digits of a float literal, after an optional sign. -/
def expTail (r : List Char) : Bool :=
  match (match r with | '+' :: x => x | '-' :: x => x | x => x) with
  | r2 => match digitRun r2 with
    | some [] => true
    | _ => false

/-- An optional exponent part closing a float literal. -/
def expPart : List Char → Bool
  | [] => true
  | 'e' :: r => expTail r
  | 'E' :: r => expTail r
  | _ => false

/-- The mantissa-exponent grammar of a CPython float literal: at least
one digit overall, an optional point, an optional exponent. -/
def mantExp (cs : List Char) : Bool :=
  match digitRun cs with
  | some r =>
    match r with
    | '.' :: r2 =>
      (match digitRun r2 with
       | some r3 => expPart r3
       | none => expPart r2)
    | _ => expPart r
  | none =>
    match cs with
    | '.' :: r2 =>
      (match digitRun r2 with
       | some r3 => expPart r3
       | none => false)
    | _ => false

/-- Case-insensitive comparison against a lowercase word. -/
def lowerEq (cs : List Char) (s : List Char) : Bool := (cs.map Char.toLower) == s

/-- The body of `float(s)` after whitespace stripping: inf / infinity /
nan (case-insensitive) or a decimal literal, with an optional sign. -/
def pyFloatChars (cs : List Char) : Bool :=
  match (match cs with | '+' :: r => r | '-' :: r => r | r => r) with
  | body =>
    if lowerEq body ['i', 'n', 'f'] || lowerEq body ['i', 'n', 'f', 'i', 'n', 'i', 't', 'y']
        || lowerEq body ['n', 'a', 'n'] then true
    else mantExp body

/-- Models acceptance by CPython `float(s)` as used at line 100; the
resulting IEEE value is not modelled, the `Value.float` constructor
keeps the accepted literal instead. -/
def pyFloatAccepts (s : String) : Bool := pyFloatChars (stripPyWs s.toList)

/-- Hashability of a decoded value as a Python dict key: list and dict
are unhashable, every other decoded value is hashable. -/
def pyHashable : Value → Bool
  | .array _ => false
  | .object _ => false
  | _ => true

/-- Python equality between hashable decoded values, as used by dict key
lookup (`key in result`).  `True == 1` and `False == 0` hold in Python;
equality between a float and an int/bool, and IEEE equality of distinct
float literals, are approximated as on the literals (no claim exercises
those corners: the only keys compared in the claims are Text and Null). -/
def pyEq : Value → Value → Bool
  | .null, .null => true
  | .bool a, .bool b => decide (a = b)
  | .bool a, .int n => decide ((if a then (1 : Int) else 0) = n)
  | .int n, .bool a => decide (n = (if a then (1 : Int) else 0))
  | .int m, .int n => decide (m = n)
  | .text a, .text b => decide (a = b)
  | .float a, .float b => decide (a = b)
  | _, _ => false

/-- Membership of a key among the keys of the accumulated object, in
insertion order: `key in result`. -/
def pyMem (key : Value) (acc : List (Value × Value)) : Bool :=
  acc.any (fun kv => pyEq kv.1 key)

/-- Size resolution from the size selector (the high nibble of byte 0),
lines 63..78 of the source.  Returns the resolved payload size and the
data start offset (the header length).  `b` is the whole buffer: the
selector-12 branch reads `jsonb_data[1]` (IndexError when missing), the
selector-13/14/15 branches unpack `jsonb_data[1:3]` / `[1:5]` / `[1:9]`
(struct.error when the clamped slice is short). -/
def resolveSize (b : Bytes) (sel : Nat) : Except PyErr (Nat × Nat) :=
  if sel ≤ 11 then .ok (sel, 1)
  else if sel = 12 then
    match b.get? 1 with
    | some v => .ok (v, 2)
    | none => .error .indexOutOfRange
  else if sel = 13 then
    if ((b.take 3).drop 1).length = 2 then .ok (beBytes ((b.take 3).drop 1), 3)
    else .error .structError
  else if sel = 14 then
    if ((b.take 5).drop 1).length = 4 then .ok (beBytes ((b.take 5).drop 1), 5)
    else .error .structError
  else if sel = 15 then
    if ((b.take 9).drop 1).length = 8 then .ok (beBytes ((b.take 9).drop 1), 9)
    else .error .structError
  else .error .unexpectedSize

/-- Payload interpretation, lines 80..141 of the source, parametrised by
the recursive interpreters for array payloads and object payloads.
`t` is the type tag (low nibble of byte 0), `size` the resolved payload
size and `tail` the bytes following the header, so that the payload
slice `jsonb_data[ds:ds+size]` is `tail.take size`. -/
def decodeBody (recSeq : Bytes → Nat → Except PyErr (List Value))
    (recPairs : Bytes → Nat → List (Value × Value) → Except PyErr (List (Value × Value)))
    (t size : Nat) (tail : Bytes) : Except PyErr Value :=
  if t = 0 then if size ≠ 0 then .error .nullNonZeroSize else .ok .null
  else if t = 1 then if size ≠ 0 then .error .boolNonZeroSize else .ok (.bool true)
  else if t = 2 then if size ≠ 0 then .error .boolNonZeroSize else .ok (.bool false)
  else if t = 3 then
    match asciiDecode (tail.take size) with
    | none => .error .asciiDecodeError
    | some s =>
      match pyInt s with
      | none => .error .intParseError
      | some n => .ok (.int n)
  else if t = 4 then
    if tail.take 2 = [0x30, 0x78] then
      match asciiDecode ((tail.take size).drop 2) with
      | none => .error .asciiDecodeError
      | some s =>
        match pyIntHex s with
        | none => .error .intParseError
        | some n => .ok (.int n)
    else
      match asciiDecode (tail.take size) with
      | none => .error .asciiDecodeError
      | some s =>
        match pyInt s with
        | none => .error .intParseError
        | some n => .ok (.int n)
  else if t = 5 ∨ t = 6 then
    match asciiDecode (tail.take size) with
    | none => .error .asciiDecodeError
    | some s => if pyFloatAccepts s then .ok (.float s) else .error .floatParseError
  else if t = 7 ∨ t = 10 then
    match utf8Decode (tail.take size) with
    | none => .error .utf8DecodeError
    | some s => .ok (.text s)
  else if t = 8 then .error .notImplemented
  else if t = 9 then .error .notImplemented
  else if t = 11 then (recSeq (tail.take size) size).map .array
  else if t = 12 then (recPairs (tail.take size) size []).map .object
  else .error .unexpectedType

mutual

/-- `_read_jsonb(jsonb_data)` with fuel standing for the recursion.  On
success the consumed count is `data_start_offset + size` (line 143). -/
def decodeOneF : Nat → Bytes → Except PyErr (Value × Nat)
  | 0, _ => .error .fuelOut
  | fuel + 1, b =>
    match b with
    | [] => .error .emptyInput
    | b0 :: rest =>
      match resolveSize (b0 :: rest) ((b0 &&& 0xf0) >>> 4) with
      | .error e => .error e
      | .ok (size, ds) =>
        (decodeBody (decodeSeqF fuel) (decodePairsF fuel) (b0 &&& 0x0f) size
          ((b0 :: rest).drop ds)).map (fun v => (v, ds + size))

/-- The array loop, lines 117..123: `rest` is `inner_data[bytes_consumed:]`
and `remaining` is `size - bytes_consumed` (the loop runs while it is
positive; a child overrunning the bound makes it zero and exits). -/
def decodeSeqF : Nat → Bytes → Nat → Except PyErr (List Value)
  | 0, _, _ => .error .fuelOut
  | fuel + 1, rest, remaining =>
    if remaining = 0 then .ok []
    else
      match decodeOneF fuel rest with
      | .error e => .error e
      | .ok (v, c) =>
        match decodeSeqF fuel (rest.drop c) (remaining - c) with
        | .error e => .error e
        | .ok vs => .ok (v :: vs)

/-- The object loop, lines 125..139: decode a key, fail when no room is
left for a value, decode the value, then the `key in result` lookup
(TypeError on an unhashable key, KeyError on a duplicate) and insertion. -/
def decodePairsF : Nat → Bytes → Nat → List (Value × Value) →
    Except PyErr (List (Value × Value))
  | 0, _, _, _ => .error .fuelOut
  | fuel + 1, rest, remaining, acc =>
    if remaining = 0 then .ok acc
    else
      match decodeOneF fuel rest with
      | .error e => .error e
      | .ok (key, kc) =>
        if remaining ≤ kc then .error .objectRanOut
        else
          match decodeOneF fuel (rest.drop kc) with
          | .error e => .error e
          | .ok (v, vc) =>
            if pyHashable key = false then .error .unhashableKey
            else if pyMem key acc then .error .duplicateKey
            else decodePairsF fuel ((rest.drop kc).drop vc) (remaining - kc - vc)
              (acc ++ [(key, v)])

end

/-- `_read_jsonb` at sufficient fuel (proved sufficient below). -/
def decode_one (b : Bytes) : Except PyErr (Value × Nat) :=
  decodeOneF (2 * b.length + 1) b

/-- The public entry point `read_jsonb`, line 146: the value alone. -/
def read_jsonb (b : Bytes) : Except PyErr Value := (decode_one b).map (fun vc => vc.1)

/-- Modelled from the claim wording of C6 (not from the source): an
optionally signed, nonempty string of ASCII decimal digits. -/
def specIntLiteral (s : String) : Bool :=
  match s.toList with
  | '+' :: r => decide (r ≠ []) && r.all Char.isDigit
  | '-' :: r => decide (r ≠ []) && r.all Char.isDigit
  | r => decide (r ≠ []) && r.all Char.isDigit

/-- Modelled from the claim wording of C8 (not from the source): the
payload size and header length implied by the size selector, with the
size-prefix bytes read big-endian and required to be present. -/
def specHeader : Bytes → Option (Nat × Nat)
  | [] => none
  | b0 :: rest =>
    if (b0 &&& 0xf0) >>> 4 ≤ 11 then some ((b0 &&& 0xf0) >>> 4, 1)
    else if (b0 &&& 0xf0) >>> 4 = 12 then
      match rest.get? 0 with
      | some n => some (n, 2)
      | none => none
    else if (b0 &&& 0xf0) >>> 4 = 13 then
      if 2 ≤ rest.length then some (beBytes (rest.take 2), 3) else none
    else if (b0 &&& 0xf0) >>> 4 = 14 then
      if 4 ≤ rest.length then some (beBytes (rest.take 4), 5) else none
    else
      if 8 ≤ rest.length then some (beBytes (rest.take 8), 9) else none

/-- Header bytes encoding payload size `N` with tag `t` under size
selector `sel`, when `N` is representable under that selector.  Used to
compare minimal against non-minimal size encodings. -/
def headerBytes (sel t N : Nat) : Option Bytes :=
  if t < 16 then
    if sel ≤ 11 then if N = sel then some [(sel <<< 4) ||| t] else none
    else if sel = 12 then if N < 256 then some [(12 <<< 4) ||| t, N] else none
    else if sel = 13 then
      if N < 65536 then some [(13 <<< 4) ||| t, N / 256, N % 256] else none
    else if sel = 14 then
      if N < 4294967296 then
        some [(14 <<< 4) ||| t, N / 16777216, N / 65536 % 256, N / 256 % 256, N % 256]
      else none
    else if sel = 15 then
      if N < 18446744073709551616 then
        some [(15 <<< 4) ||| t, N / 72057594037927936, N / 281474976710656 % 256,
          N / 1099511627776 % 256, N / 4294967296 % 256, N / 16777216 % 256,
          N / 65536 % 256, N / 256 % 256, N % 256]
      else none
    else none
  else none

/-- The two-byte `0x` probe of the Int5 branch (line 95) reads
`jsonb_data[ds:ds+2]` even when the declared payload size is smaller;
this predicate says the probe window lies inside the buffer (or the
value is not Int5), so that appending bytes cannot change the probe. -/
def int5ProbeSafe (b : Bytes) : Bool :=
  match b with
  | [] => true
  | b0 :: rest =>
    if b0 &&& 0x0f = 4 then
      match resolveSize (b0 :: rest) ((b0 &&& 0xf0) >>> 4) with
      | .ok (_, ds) => decide (ds + 2 ≤ (b0 :: rest).length)
      | .error _ => true
    else true

/-! ## Unfolding equations and basic facts -/

theorem decodeOneF_zero (b : Bytes) : decodeOneF 0 b = .error .fuelOut := rfl

theorem decodeOneF_nil (fuel : Nat) : decodeOneF (fuel + 1) [] = .error .emptyInput := rfl

theorem decodeOneF_succ (fuel : Nat) (b0 : Nat) (rest : Bytes) :
    decodeOneF (fuel + 1) (b0 :: rest) =
      match resolveSize (b0 :: rest) ((b0 &&& 0xf0) >>> 4) with
      | .error e => .error e
      | .ok (size, ds) =>
        (decodeBody (decodeSeqF fuel) (decodePairsF fuel) (b0 &&& 0x0f) size
          ((b0 :: rest).drop ds)).map (fun v => (v, ds + size)) := rfl

theorem decodeSeqF_succ (fuel : Nat) (rest : Bytes) (remaining : Nat) :
    decodeSeqF (fuel + 1) rest remaining =
      if remaining = 0 then .ok []
      else
        match decodeOneF fuel rest with
        | .error e => .error e
        | .ok (v, c) =>
          match decodeSeqF fuel (rest.drop c) (remaining - c) with
          | .error e => .error e
          | .ok vs => .ok (v :: vs) := rfl

theorem decodePairsF_succ (fuel : Nat) (rest : Bytes) (remaining : Nat)
    (acc : List (Value × Value)) :
    decodePairsF (fuel + 1) rest remaining acc =
      if remaining = 0 then .ok acc
      else
        match decodeOneF fuel rest with
        | .error e => .error e
        | .ok (key, kc) =>
          if remaining ≤ kc then .error .objectRanOut
          else
            match decodeOneF fuel (rest.drop kc) with
            | .error e => .error e
            | .ok (v, vc) =>
              if pyHashable key = false then .error .unhashableKey
              else if pyMem key acc then .error .duplicateKey
              else decodePairsF fuel ((rest.drop kc).drop vc) (remaining - kc - vc)
                (acc ++ [(key, v)]) := rfl

theorem emap_error {α β : Type} (f : α → β) (e : PyErr) :
    (Except.error e : Except PyErr α).map f = .error e := rfl

theorem emap_ok {α β : Type} (f : α → β) (a : α) :
    (Except.ok a : Except PyErr α).map f = .ok (f a) := rfl

theorem map_ne_fuel {α β : Type} (X : Except PyErr α) (g : α → β)
    (h : X ≠ .error .fuelOut) : X.map g ≠ .error .fuelOut := by
  cases X with
  | error e =>
    rw [emap_error]
    intro hc
    injection hc with h1
    subst h1
    exact h rfl
  | ok a => rw [emap_ok]; intro hc; cases hc

/-- The array payload branch of `decodeBody`. -/
theorem decodeBody_array (S : Bytes → Nat → Except PyErr (List Value))
    (P : Bytes → Nat → List (Value × Value) → Except PyErr (List (Value × Value)))
    (size : Nat) (tail : Bytes) :
    decodeBody S P 11 size tail = (S (tail.take size) size).map .array := rfl

/-- The object payload branch of `decodeBody`. -/
theorem decodeBody_object (S : Bytes → Nat → Except PyErr (List Value))
    (P : Bytes → Nat → List (Value × Value) → Except PyErr (List (Value × Value)))
    (size : Nat) (tail : Bytes) :
    decodeBody S P 12 size tail = (P (tail.take size) size []).map .object := rfl

theorem and_fifteen_lt (b0 : Nat) : b0 &&& 0x0f < 16 :=
  Nat.lt_succ_of_le Nat.and_le_right

/-- Every branch of `decodeBody` other than array and object ignores the
recursive interpreters. -/
theorem decodeBody_indep (S S' : Bytes → Nat → Except PyErr (List Value))
    (P P' : Bytes → Nat → List (Value × Value) → Except PyErr (List (Value × Value)))
    (t size : Nat) (tail : Bytes) (ht : t < 16) (h11 : t ≠ 11) (h12 : t ≠ 12) :
    decodeBody S P t size tail = decodeBody S' P' t size tail := by
  interval_cases t <;> first | omega | rfl

/-- Branches other than array and object never produce the fuel error. -/
theorem decodeBody_scalar_ne_fuel (S : Bytes → Nat → Except PyErr (List Value))
    (P : Bytes → Nat → List (Value × Value) → Except PyErr (List (Value × Value)))
    (t size : Nat) (tail : Bytes) (ht : t < 16) (h11 : t ≠ 11) (h12 : t ≠ 12) :
    decodeBody S P t size tail ≠ .error .fuelOut := by
  interval_cases t <;> first
    | omega
    | (intro hc
       simp [decodeBody] at hc
       all_goals ((try split at hc) <;> (try split at hc) <;> (try split at hc) <;> simp_all))

theorem resolveSize_le11 (b : Bytes) (sel : Nat) (h : sel ≤ 11) :
    resolveSize b sel = .ok (sel, 1) := by
  unfold resolveSize
  rw [if_pos h]

/-- The data start offset produced by `resolveSize` is 1, 2, 3, 5 or 9. -/
theorem resolveSize_ds (b : Bytes) (sel size ds : Nat)
    (h : resolveSize b sel = .ok (size, ds)) :
    ds = 1 ∨ ds = 2 ∨ ds = 3 ∨ ds = 5 ∨ ds = 9 := by
  unfold resolveSize at h
  split_ifs at h <;> first
    | (injection h with h'; injection h' with h1 h2; omega)
    | (split at h <;> first
        | (injection h with h'; injection h' with h1 h2; omega)
        | cases h)

theorem resolveSize_ds_pos (b : Bytes) (sel size ds : Nat)
    (h : resolveSize b sel = .ok (size, ds)) : 1 ≤ ds := by
  rcases resolveSize_ds b sel size ds h with h1 | h1 | h1 | h1 | h1 <;> omega

/-- A successful decode consumes exactly the header length plus the
resolved payload size (line 143 of the source). -/
theorem decodeOneF_ok_structure (fuel : Nat) (b : Bytes) (v : Value) (c : Nat)
    (h : decodeOneF fuel b = .ok (v, c)) :
    ∃ b0 rest size ds, b = b0 :: rest ∧
      resolveSize (b0 :: rest) ((b0 &&& 0xf0) >>> 4) = .ok (size, ds) ∧
      c = ds + size ∧ 1 ≤ ds := by
  cases fuel with
  | zero => rw [decodeOneF_zero] at h; cases h
  | succ f =>
    cases b with
    | nil => rw [decodeOneF_nil] at h; cases h
    | cons b0 rest =>
      rw [decodeOneF_succ] at h
      cases hres : resolveSize (b0 :: rest) ((b0 &&& 0xf0) >>> 4) with
      | error e => simp only [hres] at h; cases h
      | ok p =>
        obtain ⟨size, ds⟩ := p
        simp only [hres] at h
        cases hb : decodeBody (decodeSeqF f) (decodePairsF f) (b0 &&& 0x0f) size
            ((b0 :: rest).drop ds) with
        | error e => simp only [hb, emap_error] at h; cases h
        | ok v' =>
          simp only [hb, emap_ok] at h
          injection h with h1
          injection h1 with hv hc
          exact ⟨b0, rest, size, ds, rfl, hres, hc.symm,
            resolveSize_ds_pos _ _ _ _ hres⟩

/-- A successful decode consumes at least one byte. -/
theorem decodeOneF_consumed_pos (fuel : Nat) (b : Bytes) (v : Value) (c : Nat)
    (h : decodeOneF fuel b = .ok (v, c)) : 1 ≤ c := by
  obtain ⟨b0, rest, size, ds, _, _, hc, hds⟩ := decodeOneF_ok_structure fuel b v c h
  omega

/-! ## Fuel monotonicity and sufficiency -/

/-- Adding fuel does not change a result that did not run out of fuel. -/
theorem fuel_mono : ∀ fuel : Nat,
    (∀ b, decodeOneF fuel b ≠ .error .fuelOut →
      decodeOneF (fuel + 1) b = decodeOneF fuel b) ∧
    (∀ rest rem, decodeSeqF fuel rest rem ≠ .error .fuelOut →
      decodeSeqF (fuel + 1) rest rem = decodeSeqF fuel rest rem) ∧
    (∀ rest rem acc, decodePairsF fuel rest rem acc ≠ .error .fuelOut →
      decodePairsF (fuel + 1) rest rem acc = decodePairsF fuel rest rem acc) := by
  intro fuel
  induction fuel with
  | zero =>
    refine ⟨fun b h => ?_, fun rest rem h => ?_, fun rest rem acc h => ?_⟩ <;>
      exact absurd rfl h
  | succ f ih =>
    obtain ⟨ihOne, ihSeq, ihPairs⟩ := ih
    refine ⟨fun b h => ?_, fun rest rem h => ?_, fun rest rem acc h => ?_⟩
    · -- decodeOneF
      cases b with
      | nil => rfl
      | cons b0 rest =>
        rw [decodeOneF_succ (f + 1), decodeOneF_succ f]
        rw [decodeOneF_succ f] at h
        cases hres : resolveSize (b0 :: rest) ((b0 &&& 0xf0) >>> 4) with
        | error e => simp only [hres]
        | ok p =>
          obtain ⟨size, ds⟩ := p
          simp only [hres] at h ⊢
          by_cases h11 : b0 &&& 0x0f = 11
          · rw [h11] at h ⊢
            rw [decodeBody_array] at h
            rw [decodeBody_array, decodeBody_array]
            have hne : decodeSeqF f (((b0 :: rest).drop ds).take size) size
                ≠ .error .fuelOut := by
              intro hq
              simp only [hq, emap_error] at h
              exact h rfl
            rw [ihSeq _ _ hne]
          · by_cases h12 : b0 &&& 0x0f = 12
            · rw [h12] at h ⊢
              rw [decodeBody_object] at h
              rw [decodeBody_object, decodeBody_object]
              have hne : decodePairsF f (((b0 :: rest).drop ds).take size) size []
                  ≠ .error .fuelOut := by
                intro hq
                simp only [hq, emap_error] at h
                exact h rfl
              rw [ihPairs _ _ _ hne]
            · rw [decodeBody_indep (decodeSeqF (f + 1)) (decodeSeqF f)
                (decodePairsF (f + 1)) (decodePairsF f) _ size _
                (and_fifteen_lt b0) h11 h12]
    · -- decodeSeqF
      rw [decodeSeqF_succ (f + 1), decodeSeqF_succ f]
      rw [decodeSeqF_succ f] at h
      by_cases h0 : rem = 0
      · simp only [if_pos h0]
      · rw [if_neg h0] at h
        simp only [if_neg h0]
        have h1 : decodeOneF f rest ≠ .error .fuelOut := by
          intro hq; simp only [hq] at h; exact h rfl
        rw [ihOne rest h1]
        cases hone : decodeOneF f rest with
        | error e => rfl
        | ok vc =>
          obtain ⟨v, c⟩ := vc
          simp only [hone] at h ⊢
          have h2 : decodeSeqF f (rest.drop c) (rem - c) ≠ .error .fuelOut := by
            intro hq; simp only [hq] at h; exact h rfl
          rw [ihSeq _ _ h2]
    · -- decodePairsF
      rw [decodePairsF_succ (f + 1), decodePairsF_succ f]
      rw [decodePairsF_succ f] at h
      by_cases h0 : rem = 0
      · simp only [if_pos h0]
      · rw [if_neg h0] at h
        simp only [if_neg h0]
        have h1 : decodeOneF f rest ≠ .error .fuelOut := by
          intro hq; simp only [hq] at h; exact h rfl
        rw [ihOne rest h1]
        cases hone : decodeOneF f rest with
        | error e => rfl
        | ok vc =>
          obtain ⟨key, kc⟩ := vc
          simp only [hone] at h ⊢
          by_cases hk : rem ≤ kc
          · simp only [if_pos hk]
          · rw [if_neg hk] at h
            simp only [if_neg hk]
            have h2 : decodeOneF f (rest.drop kc) ≠ .error .fuelOut := by
              intro hq; simp only [hq] at h; exact h rfl
            rw [ihOne _ h2]
            cases htwo : decodeOneF f (rest.drop kc) with
            | error e => rfl
            | ok vc2 =>
              obtain ⟨v, vc⟩ := vc2
              simp only [htwo] at h ⊢
              by_cases hh : pyHashable key = false
              · simp only [if_pos hh]
              · rw [if_neg hh] at h
                simp only [if_neg hh]
                by_cases hm : pyMem key acc
                · simp only [if_pos hm]
                · rw [if_neg hm] at h
                  simp only [if_neg hm]
                  exact ihPairs _ _ _ h

/-- Climbing to any larger fuel preserves a settled result. -/
theorem decodeOneF_climb (f f' : Nat) (b : Bytes) (hle : f ≤ f')
    (h : decodeOneF f b ≠ .error .fuelOut) : decodeOneF f' b = decodeOneF f b := by
  obtain ⟨k, rfl⟩ : ∃ k, f' = f + k := ⟨f' - f, by omega⟩
  clear hle
  induction k with
  | zero => rfl
  | succ k ih =>
    have h2 : decodeOneF (f + k) b ≠ .error .fuelOut := by rw [ih]; exact h
    have := (fuel_mono (f + k)).1 b h2
    rw [show f + (k + 1) = f + k + 1 from rfl, this, ih]

theorem decodeSeqF_climb (f f' : Nat) (rest : Bytes) (rem : Nat) (hle : f ≤ f')
    (h : decodeSeqF f rest rem ≠ .error .fuelOut) :
    decodeSeqF f' rest rem = decodeSeqF f rest rem := by
  obtain ⟨k, rfl⟩ : ∃ k, f' = f + k := ⟨f' - f, by omega⟩
  clear hle
  induction k with
  | zero => rfl
  | succ k ih =>
    have h2 : decodeSeqF (f + k) rest rem ≠ .error .fuelOut := by rw [ih]; exact h
    have := (fuel_mono (f + k)).2.1 rest rem h2
    rw [show f + (k + 1) = f + k + 1 from rfl, this, ih]

theorem decodePairsF_climb (f f' : Nat) (rest : Bytes) (rem : Nat)
    (acc : List (Value × Value)) (hle : f ≤ f')
    (h : decodePairsF f rest rem acc ≠ .error .fuelOut) :
    decodePairsF f' rest rem acc = decodePairsF f rest rem acc := by
  obtain ⟨k, rfl⟩ : ∃ k, f' = f + k := ⟨f' - f, by omega⟩
  clear hle
  induction k with
  | zero => rfl
  | succ k ih =>
    have h2 : decodePairsF (f + k) rest rem acc ≠ .error .fuelOut := by rw [ih]; exact h
    have := (fuel_mono (f + k)).2.2 rest rem acc h2
    rw [show f + (k + 1) = f + k + 1 from rfl, this, ih]

/-- The size resolver never reports fuel exhaustion. -/
theorem resolveSize_ne_fuel (b : Bytes) (sel : Nat) :
    resolveSize b sel ≠ .error .fuelOut := by
  unfold resolveSize
  intro hq
  split_ifs at hq <;> first
    | (split at hq <;> simp at hq)
    | simp at hq

/-- Fuel `2 * length + 1` is sufficient: the decoder never runs out,
because every recursive call descends into a strictly shorter slice and
every loop step consumes at least one byte. -/
theorem fuel_suff : ∀ fuel : Nat,
    (∀ b : Bytes, 2 * b.length + 1 ≤ fuel → decodeOneF fuel b ≠ .error .fuelOut) ∧
    (∀ (rest : Bytes) (rem : Nat), 2 * rest.length + 2 ≤ fuel →
      decodeSeqF fuel rest rem ≠ .error .fuelOut) ∧
    (∀ (rest : Bytes) (rem : Nat) (acc : List (Value × Value)),
      2 * rest.length + 2 ≤ fuel → decodePairsF fuel rest rem acc ≠ .error .fuelOut) := by
  intro fuel
  induction fuel with
  | zero =>
    refine ⟨fun b hb => ?_, fun rest rem hb => ?_, fun rest rem acc hb => ?_⟩ <;> omega
  | succ f ih =>
    obtain ⟨ihOne, ihSeq, ihPairs⟩ := ih
    have onePos : ∀ (g : Nat) (bb : Bytes) (v : Value) (c : Nat),
        decodeOneF g bb = .ok (v, c) → 1 ≤ bb.length := by
      intro g bb v c hg
      cases bb with
      | nil =>
        exfalso
        cases g with
        | zero => rw [decodeOneF_zero] at hg; cases hg
        | succ g2 => rw [decodeOneF_nil] at hg; cases hg
      | cons x xs => simp
    refine ⟨fun b hb => ?_, fun rest rem hb => ?_, fun rest rem acc hb => ?_⟩
    · -- decodeOneF
      cases b with
      | nil => rw [decodeOneF_nil]; intro hc; cases hc
      | cons b0 rest =>
        rw [decodeOneF_succ]
        cases hres : resolveSize (b0 :: rest) ((b0 &&& 0xf0) >>> 4) with
        | error e =>
          simp only [hres]
          intro hq
          injection hq with h1
          subst h1
          exact resolveSize_ne_fuel _ _ hres
        | ok p =>
          obtain ⟨size, ds⟩ := p
          simp only [hres]
          apply map_ne_fuel
          have hds := resolveSize_ds_pos _ _ _ _ hres
          have hlen : (((b0 :: rest).drop ds).take size).length ≤ rest.length := by
            have h1 : (((b0 :: rest).drop ds).take size).length ≤
                ((b0 :: rest).drop ds).length := by
              rw [List.length_take]; omega
            have h2 : ((b0 :: rest).drop ds).length = rest.length + 1 - ds := by
              rw [List.length_drop]; rfl
            omega
          simp only [List.length_cons] at hb
          by_cases h11 : b0 &&& 0x0f = 11
          · rw [h11, decodeBody_array]
            apply map_ne_fuel
            exact ihSeq _ _ (by omega)
          · by_cases h12 : b0 &&& 0x0f = 12
            · rw [h12, decodeBody_object]
              apply map_ne_fuel
              exact ihPairs _ _ _ (by omega)
            · exact decodeBody_scalar_ne_fuel _ _ _ _ _ (and_fifteen_lt b0) h11 h12
    · -- decodeSeqF
      rw [decodeSeqF_succ]
      by_cases h0 : rem = 0
      · rw [if_pos h0]; intro hc; cases hc
      · rw [if_neg h0]
        intro hq
        split at hq
        · rename_i e heq
          injection hq with h1
          subst h1
          exact ihOne rest (by omega) heq
        · rename_i vc v c heq
          have hc1 : 1 ≤ c := decodeOneF_consumed_pos f rest v c heq
          have hrl : 1 ≤ rest.length := onePos f rest v c heq
          split at hq
          · rename_i e2 heq2
            injection hq with h1
            subst h1
            refine ihSeq (rest.drop c) (rem - c) ?_ heq2
            rw [List.length_drop]
            omega
          · cases hq
    · -- decodePairsF
      rw [decodePairsF_succ]
      by_cases h0 : rem = 0
      · rw [if_pos h0]; intro hc; cases hc
      · rw [if_neg h0]
        intro hq
        split at hq
        · rename_i e heq
          injection hq with h1
          subst h1
          exact ihOne rest (by omega) heq
        · rename_i vc key kc heq
          have hkc : 1 ≤ kc := decodeOneF_consumed_pos f rest key kc heq
          have hrl : 1 ≤ rest.length := onePos f rest key kc heq
          split at hq
          · simp at hq
          · rename_i hk
            split at hq
            · rename_i e2 heq2
              injection hq with h1
              subst h1
              refine ihOne (rest.drop kc) ?_ heq2
              rw [List.length_drop]
              omega
            · rename_i vc2 v vcn heq2
              have hvc : 1 ≤ vcn := decodeOneF_consumed_pos f _ v vcn heq2
              split at hq
              · simp at hq
              · split at hq
                · simp at hq
                · refine ihPairs _ _ _ ?_ hq
                  rw [List.length_drop, List.length_drop]
                  omega

/-- At any fuel at least `2 * length + 1`, `decodeOneF` agrees with
`decode_one`. -/
theorem decodeOneF_eq_decode_one (fuel : Nat) (b : Bytes)
    (h : 2 * b.length + 1 ≤ fuel) : decodeOneF fuel b = decode_one b := by
  unfold decode_one
  exact decodeOneF_climb (2 * b.length + 1) fuel b h ((fuel_suff _).1 b (le_refl _))

/-- `decode_one` never reports fuel exhaustion. -/
theorem decode_one_ne_fuel (b : Bytes) : decode_one b ≠ .error .fuelOut :=
  (fuel_suff _).1 b (le_refl _)

/-! ## Appending bytes beyond the consumed region -/

/-- A successfully resolved header stays the same when bytes are
appended to the buffer. -/
theorem resolveSize_append (b ext : Bytes) (sel size ds : Nat)
    (h : resolveSize b sel = .ok (size, ds)) :
    resolveSize (b ++ ext) sel = .ok (size, ds) := by
  unfold resolveSize at h ⊢
  by_cases h11 : sel ≤ 11
  · rw [if_pos h11] at h ⊢; exact h
  · rw [if_neg h11] at h ⊢
    by_cases h12 : sel = 12
    · rw [if_pos h12] at h ⊢
      cases b with
      | nil => simp at h
      | cons b0 bs =>
        cases bs with
        | nil => simp at h
        | cons b1 bs2 => exact h
    · rw [if_neg h12] at h ⊢
      by_cases h13 : sel = 13
      · rw [if_pos h13] at h ⊢
        split_ifs at h with hlen
        · have hb3 : 3 ≤ b.length := by
            rw [List.length_drop, List.length_take] at hlen; omega
          rw [List.take_append_of_le_length hb3, if_pos hlen]
          exact h
      · rw [if_neg h13] at h ⊢
        by_cases h14 : sel = 14
        · rw [if_pos h14] at h ⊢
          split_ifs at h with hlen
          · have hb5 : 5 ≤ b.length := by
              rw [List.length_drop, List.length_take] at hlen; omega
            rw [List.take_append_of_le_length hb5, if_pos hlen]
            exact h
        · rw [if_neg h14] at h ⊢
          by_cases h15 : sel = 15
          · rw [if_pos h15] at h ⊢
            split_ifs at h with hlen
            · have hb9 : 9 ≤ b.length := by
                rw [List.length_drop, List.length_take] at hlen; omega
              rw [List.take_append_of_le_length hb9, if_pos hlen]
              exact h
          · rw [if_neg h15] at h ⊢
            simp at h

/-- The Int5 payload branch of `decodeBody`. -/
theorem decodeBody_int5 (S : Bytes → Nat → Except PyErr (List Value))
    (P : Bytes → Nat → List (Value × Value) → Except PyErr (List (Value × Value)))
    (size : Nat) (tail : Bytes) :
    decodeBody S P 4 size tail =
      if tail.take 2 = [0x30, 0x78] then
        match asciiDecode ((tail.take size).drop 2) with
        | none => .error .asciiDecodeError
        | some s =>
          match pyIntHex s with
          | none => .error .intParseError
          | some n => .ok (.int n)
      else
        match asciiDecode (tail.take size) with
        | none => .error .asciiDecodeError
        | some s =>
          match pyInt s with
          | none => .error .intParseError
          | some n => .ok (.int n) := rfl

/-- `decodeBody` only inspects the payload window `tail.take size` and,
for Int5, the probe window `tail.take 2`. -/
theorem decodeBody_take_congr (S : Bytes → Nat → Except PyErr (List Value))
    (P : Bytes → Nat → List (Value × Value) → Except PyErr (List (Value × Value)))
    (t size : Nat) (tail₁ tail₂ : Bytes) (ht : t < 16)
    (h1 : tail₁.take size = tail₂.take size)
    (h2 : t = 4 → tail₁.take 2 = tail₂.take 2) :
    decodeBody S P t size tail₁ = decodeBody S P t size tail₂ := by
  interval_cases t <;> first
    | rfl
    | (rw [decodeBody_int5 S P size tail₁, decodeBody_int5 S P size tail₂, h2 rfl, h1])
    | simp [decodeBody, h1]

/-- Appending bytes after the consumed region of a successful decode
changes nothing, provided the Int5 probe window lay inside the original
buffer. -/
theorem decodeOneF_append (fuel : Nat) (b ext : Bytes) (v : Value) (c : Nat)
    (h : decodeOneF fuel b = .ok (v, c)) (hc : c ≤ b.length)
    (hp : int5ProbeSafe b = true) :
    decodeOneF fuel (b ++ ext) = .ok (v, c) := by
  cases fuel with
  | zero => rw [decodeOneF_zero] at h; cases h
  | succ f =>
    cases b with
    | nil => rw [decodeOneF_nil] at h; cases h
    | cons b0 rest =>
      rw [decodeOneF_succ] at h
      cases hres : resolveSize (b0 :: rest) ((b0 &&& 0xf0) >>> 4) with
      | error e => simp only [hres] at h; cases h
      | ok p =>
        obtain ⟨size, ds⟩ := p
        simp only [hres] at h
        cases hb : decodeBody (decodeSeqF f) (decodePairsF f) (b0 &&& 0x0f) size
            ((b0 :: rest).drop ds) with
        | error e => simp only [hb, emap_error] at h; cases h
        | ok v' =>
          simp only [hb, emap_ok] at h
          injection h with h1
          injection h1 with hv hcds
          have hcc : c = ds + size := hcds.symm
          have hdsle : ds ≤ (b0 :: rest).length := by omega
          have hres2 : resolveSize ((b0 :: rest) ++ ext) ((b0 &&& 0xf0) >>> 4)
              = .ok (size, ds) := resolveSize_append _ ext _ _ _ hres
          show decodeOneF (f + 1) ((b0 :: rest) ++ ext) = .ok (v, c)
          rw [show (b0 :: rest) ++ ext = b0 :: (rest ++ ext) from rfl, decodeOneF_succ]
          rw [show (b0 :: (rest ++ ext)) = (b0 :: rest) ++ ext from rfl]
          simp only [hres2]
          have hdrop : ((b0 :: rest) ++ ext).drop ds = (b0 :: rest).drop ds ++ ext :=
            List.drop_append_of_le_length hdsle
          rw [hdrop]
          have htake : ((b0 :: rest).drop ds ++ ext).take size
              = ((b0 :: rest).drop ds).take size := by
            apply List.take_append_of_le_length
            rw [List.length_drop]
            omega
          have hprobe : b0 &&& 0x0f = 4 →
              ((b0 :: rest).drop ds ++ ext).take 2 = ((b0 :: rest).drop ds).take 2 := by
            intro ht4
            apply List.take_append_of_le_length
            rw [List.length_drop]
            simp only [int5ProbeSafe] at hp
            rw [if_pos ht4] at hp
            simp only [hres] at hp
            have := of_decide_eq_true hp
            omega
          rw [decodeBody_take_congr _ _ _ _ _ _ (and_fifteen_lt b0) htake hprobe,
            hb, emap_ok, hv, hcc]

/-- `decode_one` ignores appended bytes under the same conditions. -/
theorem decode_one_append (b ext : Bytes) (v : Value) (c : Nat)
    (h : decode_one b = .ok (v, c)) (hc : c ≤ b.length)
    (hp : int5ProbeSafe b = true) : decode_one (b ++ ext) = .ok (v, c) := by
  have h1 : decodeOneF (2 * b.length + 1) (b ++ ext) = .ok (v, c) :=
    decodeOneF_append _ b ext v c h hc hp
  have h2 : 2 * b.length + 1 ≤ 2 * (b ++ ext).length + 1 := by
    rw [List.length_append]; omega
  unfold decode_one
  rw [decodeOneF_climb (2 * b.length + 1) (2 * (b ++ ext).length + 1) (b ++ ext) h2
    (by rw [h1]; intro hq; cases hq), h1]

/-! ## Branch unfoldings and header byte facts -/

/-- The Int payload branch of `decodeBody`. -/
theorem decodeBody_int (S : Bytes → Nat → Except PyErr (List Value))
    (P : Bytes → Nat → List (Value × Value) → Except PyErr (List (Value × Value)))
    (size : Nat) (tail : Bytes) :
    decodeBody S P 3 size tail =
      match asciiDecode (tail.take size) with
      | none => .error .asciiDecodeError
      | some s =>
        match pyInt s with
        | none => .error .intParseError
        | some n => .ok (.int n) := rfl

/-- The Text payload branch of `decodeBody`. -/
theorem decodeBody_text (S : Bytes → Nat → Except PyErr (List Value))
    (P : Bytes → Nat → List (Value × Value) → Except PyErr (List (Value × Value)))
    (size : Nat) (tail : Bytes) :
    decodeBody S P 7 size tail =
      match utf8Decode (tail.take size) with
      | none => .error .utf8DecodeError
      | some s => .ok (.text s) := rfl

/-- The TextJ branch raises NotImplementedError. -/
theorem decodeBody_textj (S : Bytes → Nat → Except PyErr (List Value))
    (P : Bytes → Nat → List (Value × Value) → Except PyErr (List (Value × Value)))
    (size : Nat) (tail : Bytes) :
    decodeBody S P 8 size tail = .error .notImplemented := rfl

/-- The Text5 branch raises NotImplementedError. -/
theorem decodeBody_text5 (S : Bytes → Nat → Except PyErr (List Value))
    (P : Bytes → Nat → List (Value × Value) → Except PyErr (List (Value × Value)))
    (size : Nat) (tail : Bytes) :
    decodeBody S P 9 size tail = .error .notImplemented := rfl

/-- Extracting the nibbles of a constructed header byte. -/
theorem nibble_facts : ∀ sel < 16, ∀ t < 16,
    ((sel <<< 4) ||| t) &&& 0x0f = t ∧ (((sel <<< 4) ||| t) &&& 0xf0) >>> 4 = sel := by
  decide

/-! ## Claims -/

/-- C1, counterexample: a Text buffer declaring payload size 10 with only
5 bytes after the header does NOT fail with a truncation error; it
succeeds, returning the 5-byte string and a consumed count of 11 that
exceeds the 6-byte buffer. -/
theorem C1_counterexample :
    decode_one [0xA7, 104, 101, 108, 108, 111] = .ok (.text "hello", 11) ∧
    ([0xA7, 104, 101, 108, 108, 111] : Bytes).length = 6 := ⟨rfl, rfl⟩

/-- C1, amended: no truncated-payload check exists; for a Text value
whose declared size exceeds the bytes available after the header, the
payload slice is silently clamped to the remaining bytes and decoding
proceeds on them, still reporting consumed = header + declared size. -/
theorem C1_amended (b : Bytes) (size ds : Nat)
    (htag : (b.headD 0) &&& 0x0f = 7)
    (hres : resolveSize b (((b.headD 0) &&& 0xf0) >>> 4) = .ok (size, ds))
    (htrunc : b.length ≤ ds + size) :
    decode_one b =
      match utf8Decode (b.drop ds) with
      | none => .error .utf8DecodeError
      | some s => .ok (.text s, ds + size) := by
  cases b with
  | nil => exact absurd htag (by decide)
  | cons b0 rest =>
    simp only [List.headD_cons] at htag hres
    unfold decode_one
    rw [decodeOneF_succ]
    simp only [hres, htag, decodeBody_text]
    have htt : ((b0 :: rest).drop ds).take size = (b0 :: rest).drop ds := by
      apply List.take_of_length_le
      rw [List.length_drop]
      omega
    rw [htt]
    cases hu : utf8Decode ((b0 :: rest).drop ds) with
    | none => simp only [hu, emap_error]
    | some s => simp only [hu, emap_ok]

/-- C1, witness for the amended claim at the truncated hello buffer. -/
theorem C1_amended_witness :
    (([0xA7, 104, 101, 108, 108, 111] : Bytes).headD 0) &&& 0x0f = 7 ∧
    ([0xA7, 104, 101, 108, 108, 111] : Bytes).length ≤ 1 + 10 ∧
    decode_one [0xA7, 104, 101, 108, 108, 111] =
      match utf8Decode (([0xA7, 104, 101, 108, 108, 111] : Bytes).drop 1) with
      | none => .error .utf8DecodeError
      | some s => .ok (.text s, 1 + 10) :=
  ⟨rfl, by decide, C1_amended [0xA7, 104, 101, 108, 108, 111] 10 1 rfl rfl (by decide)⟩

/-- C2, counterexample: in the array buffer 2B A7 41 the single child
reports consumed length 11, far past the declared payload size 2, yet
decoding succeeds with no MalformedComposite error. -/
theorem C2_counterexample :
    decode_one [0x2B, 0xA7, 0x41] = .ok (.array [.text "A"], 3) ∧
    decode_one [0xA7, 0x41] = .ok (.text "A", 11) := ⟨rfl, rfl⟩

/-- C2, amended: when a child of a composite would push the cursor past
the declared payload size, the loop silently terminates with the
elements collected so far instead of failing; the overrun is accepted. -/
theorem C2_amended (fuel : Nat) (rest : Bytes) (rem : Nat) (v : Value) (c : Nat)
    (h0 : 0 < rem) (h : decodeOneF fuel rest = .ok (v, c)) (hc : rem ≤ c) :
    decodeSeqF (fuel + 1) rest rem = .ok [v] := by
  have hz : decodeSeqF fuel (rest.drop c) (rem - c) = .ok [] := by
    cases fuel with
    | zero => rw [decodeOneF_zero] at h; cases h
    | succ f => rw [decodeSeqF_succ, if_pos (by omega)]
  rw [decodeSeqF_succ, if_neg (by omega)]
  simp only [h, hz]

/-- C2, witness for the amended claim: the overrunning child of the
counterexample array. -/
theorem C2_amended_witness :
    0 < 2 ∧ decodeOneF 5 [0xA7, 0x41] = .ok (.text "A", 11) ∧ 2 ≤ 11 ∧
    decodeSeqF 6 [0xA7, 0x41] 2 = .ok [.text "A"] :=
  ⟨by decide, rfl, by decide, C2_amended 5 [0xA7, 0x41] 2 (.text "A") 11 (by decide) rfl
    (by decide)⟩

/-- C3, counterexample: the Int5 buffer 14 30 decodes to 0 consuming
exactly its 2 bytes, but appending the trailing byte 78 turns the
success into a NumericParseError, because the 0x probe then reads the
appended byte. -/
theorem C3_counterexample :
    decode_one [0x14, 0x30] = .ok (.int 0, 2) ∧
    decode_one [0x14, 0x30, 0x78] = .error .intParseError := ⟨rfl, rfl⟩

/-- C3, amended: trailing bytes appended after the consumed length do
not change a successful decode, provided the consumed region lies inside
the buffer and, for a top-level Int5 value, the two-byte 0x probe window
does not extend past the original buffer end. -/
theorem C3_amended (b ext : Bytes) (v : Value) (c : Nat)
    (h : decode_one b = .ok (v, c)) (hc : c ≤ b.length)
    (hp : int5ProbeSafe b = true) : decode_one (b ++ ext) = .ok (v, c) :=
  decode_one_append b ext v c h hc hp

/-- C3, witness for the amended claim. -/
theorem C3_amended_witness :
    decode_one [0x17, 0x61] = .ok (.text "a", 2) ∧ 2 ≤ 2 ∧
    int5ProbeSafe [0x17, 0x61] = true ∧
    decode_one [0x17, 0x61, 0xFF] = .ok (.text "a", 2) :=
  ⟨rfl, by decide, rfl, C3_amended [0x17, 0x61] [0xFF] (.text "a") 2 rfl (by decide) rfl⟩

/-- C5, counterexample: the one-byte buffer C8 has tag 0x8 (TextJ) under
size selector 12, and fails with the header IndexError, not with the
NotImplementedError that stands for UnsupportedEncoding: the tag is only
rejected after the size prefix is read. -/
theorem C5_counterexample :
    decode_one [0xC8] = .error .indexOutOfRange ∧
    decode_one [0xC8] ≠ .error .notImplemented := by
  have h1 : decode_one [0xC8] = .error .indexOutOfRange := rfl
  exact ⟨h1, by rw [h1]; simp⟩

/-- C5, amended: once the size prefix resolves, a tag of 0x8 or 0x9
fails with NotImplementedError regardless of the payload bytes (which
are never read); a buffer too short for its size prefix fails with the
header error first. -/
theorem C5_amended (b : Bytes) (size ds : Nat)
    (htag : (b.headD 0) &&& 0x0f = 8 ∨ (b.headD 0) &&& 0x0f = 9)
    (hres : resolveSize b (((b.headD 0) &&& 0xf0) >>> 4) = .ok (size, ds)) :
    decode_one b = .error .notImplemented := by
  cases b with
  | nil => rcases htag with h8 | h8 <;> exact absurd h8 (by decide)
  | cons b0 rest =>
    simp only [List.headD_cons] at htag hres
    unfold decode_one
    rw [decodeOneF_succ]
    simp only [hres]
    rcases htag with h8 | h8 <;> rw [h8] <;> rfl

/-- C5, witness for the amended claim: selector 12 declaring size 5 with
no payload bytes at all still reports NotImplementedError. -/
theorem C5_amended_witness :
    (([0xC8, 5] : Bytes).headD 0) &&& 0x0f = 8 ∧
    resolveSize [0xC8, 5] ((([0xC8, 5] : Bytes).headD 0 &&& 0xf0) >>> 4) = .ok (5, 2) ∧
    decode_one [0xC8, 5] = .error .notImplemented :=
  ⟨rfl, rfl, C5_amended [0xC8, 5] 5 2 (Or.inl rfl) rfl⟩

/-- C6, counterexample: the Int payload " 5" is not an optionally signed
digit string, yet decoding succeeds with value 5, because int() strips
whitespace. -/
theorem C6_counterexample :
    decode_one [0x23, 0x20, 0x35] = .ok (.int 5, 3) ∧
    specIntLiteral " 5" = false := ⟨rfl, rfl⟩

/-- C6, amended: an Int-tagged value decodes by applying the Python
int() parser to the ASCII payload: whitespace around the literal and
single underscores between digits are accepted, the empty payload and
all other malformed payloads fail with NumericParseError, and non-ASCII
payloads fail with the ASCII decode error. -/
theorem C6_amended (p : Bytes) (N : Nat) (hN : p.length = N) (hle : N ≤ 11) :
    decode_one (((N <<< 4) ||| 0x03) :: p) =
      match asciiDecode p with
      | none => .error .asciiDecodeError
      | some s =>
        match pyInt s with
        | none => .error .intParseError
        | some k => .ok (.int k, 1 + N) := by
  obtain ⟨htag, hsel⟩ := nibble_facts N (by omega) 3 (by decide)
  unfold decode_one
  rw [decodeOneF_succ]
  simp only [hsel, resolveSize_le11 _ _ hle, htag, decodeBody_int]
  have hdrop : (((N <<< 4) ||| 0x03) :: p).drop 1 = p := rfl
  rw [hdrop, ← hN, List.take_length]
  cases ha : asciiDecode p with
  | none => simp only [ha, emap_error]
  | some s =>
    simp only [ha]
    cases hi : pyInt s with
    | none => simp only [hi, emap_error]
    | some k => simp only [hi, emap_ok, hN]

/-- C6, witness for the amended claim at the whitespace payload. -/
theorem C6_amended_witness :
    ([0x20, 0x35] : Bytes).length = 2 ∧ 2 ≤ 11 ∧
    decode_one [0x23, 0x20, 0x35] = .ok (.int 5, 3) :=
  ⟨rfl, by decide, (C6_amended [0x20, 0x35] 2 rfl (by decide)).trans rfl⟩

/-- C9: decoding always terminates, with recursion depth linear in the
buffer length: any fuel of at least twice the buffer length plus one
yields the same settled result, and it is never the fuel error. -/
theorem C9_termination (b : Bytes) (fuel : Nat) (h : 2 * b.length + 1 ≤ fuel) :
    decodeOneF fuel b = decode_one b ∧ decode_one b ≠ .error .fuelOut :=
  ⟨decodeOneF_eq_decode_one fuel b h, decode_one_ne_fuel b⟩

/-- C9, witness at a concrete buffer and fuel. -/
theorem C9_termination_witness :
    2 * ([0x17, 0x61] : Bytes).length + 1 ≤ 100 ∧
    (decodeOneF 100 [0x17, 0x61] = decode_one [0x17, 0x61] ∧
      decode_one [0x17, 0x61] ≠ .error .fuelOut) :=
  ⟨by decide, C9_termination [0x17, 0x61] 100 (by decide)⟩

/-- A resolved header agrees with the header table of the specification
(`specHeader` is written from the claim wording). -/
theorem resolveSize_specHeader (b0 : Nat) (rest : Bytes) (size ds : Nat)
    (h : resolveSize (b0 :: rest) ((b0 &&& 0xf0) >>> 4) = .ok (size, ds)) :
    specHeader (b0 :: rest) = some (size, ds) := by
  unfold resolveSize at h
  simp only [specHeader]
  by_cases h11 : (b0 &&& 0xf0) >>> 4 ≤ 11
  · rw [if_pos h11] at h ⊢
    injection h with h1
    injection h1 with hsz hds
    rw [hsz, hds]
  · rw [if_neg h11] at h ⊢
    by_cases h12 : (b0 &&& 0xf0) >>> 4 = 12
    · rw [if_pos h12] at h ⊢
      cases hg : rest.get? 0 with
      | none =>
        have : (b0 :: rest).get? 1 = none := hg
        simp only [this] at h
        cases h
      | some u =>
        have : (b0 :: rest).get? 1 = some u := hg
        simp only [this] at h
        simp only [hg]
        injection h with h1
        injection h1 with hsz hds
        rw [hsz, hds]
    · rw [if_neg h12] at h ⊢
      by_cases h13 : (b0 &&& 0xf0) >>> 4 = 13
      · rw [if_pos h13] at h ⊢
        split_ifs at h with hlen
        · have h2 : 2 ≤ rest.length := by
            rw [List.length_drop, List.length_take, List.length_cons] at hlen
            omega
          rw [if_pos h2]
          injection h with h1
          injection h1 with hsz hds
          rw [← hsz, ← hds]
          rfl
      · rw [if_neg h13] at h ⊢
        by_cases h14 : (b0 &&& 0xf0) >>> 4 = 14
        · rw [if_pos h14] at h ⊢
          split_ifs at h with hlen
          · have h2 : 4 ≤ rest.length := by
              rw [List.length_drop, List.length_take, List.length_cons] at hlen
              omega
            rw [if_pos h2]
            injection h with h1
            injection h1 with hsz hds
            rw [← hsz, ← hds]
            rfl
        · rw [if_neg h14] at h ⊢
          by_cases h15 : (b0 &&& 0xf0) >>> 4 = 15
          · rw [if_pos h15] at h
            split_ifs at h with hlen
            · have h2 : 8 ≤ rest.length := by
                rw [List.length_drop, List.length_take, List.length_cons] at hlen
                omega
              rw [if_pos h2]
              injection h with h1
              injection h1 with hsz hds
              rw [← hsz, ← hds]
              rfl
          · rw [if_neg h15] at h
            cases h

/-- C8: whenever a decode succeeds, the consumed count equals the header
length plus the resolved payload size exactly as the specification
header table (selector 0..11 inline with a 1-byte header, selector
12/13/14/15 a 1/2/4/8-byte big-endian prefix with a 2/3/5/9-byte
header) prescribes. -/
theorem C8_consumed (b : Bytes) (v : Value) (c : Nat)
    (h : decode_one b = .ok (v, c)) :
    ∃ size hl, specHeader b = some (size, hl) ∧ c = hl + size := by
  obtain ⟨b0, rest, size, ds, heq, hres, hc, hds⟩ :=
    decodeOneF_ok_structure (2 * b.length + 1) b v c h
  subst heq
  exact ⟨size, ds, resolveSize_specHeader b0 rest size ds hres, hc⟩

/-- C8, witness: a Text value of size 12 behind a selector-12 prefix
consumes 14 = 2 + 12 bytes. -/
theorem C8_consumed_witness :
    decode_one [0xC7, 12, 97, 97, 97, 97, 97, 97, 97, 97, 97, 97, 97, 97]
      = .ok (.text "aaaaaaaaaaaa", 14) ∧
    (∃ size hl,
      specHeader [0xC7, 12, 97, 97, 97, 97, 97, 97, 97, 97, 97, 97, 97, 97]
        = some (size, hl) ∧ 14 = hl + size) :=
  ⟨rfl, C8_consumed [0xC7, 12, 97, 97, 97, 97, 97, 97, 97, 97, 97, 97, 97, 97]
    (.text "aaaaaaaaaaaa") 14 rfl⟩

/-- C4, counterexample: an object whose key decodes to Null is accepted:
buffer 2C 00 00 yields the mapping with a Null key and Null value, with
no NonTextKey error. -/
theorem C4_counterexample :
    decode_one [0x2C, 0x00, 0x00] = .ok (.object [(.null, .null)], 3) := rfl

/-- C4, amended: object keys are not checked for Text kind; any decoded
key that is hashable in Python (Null, Bool, Int, Float or Text) is
accepted into the mapping together with its value.  (Unhashable Array
and Object keys raise a TypeError at the dict lookup instead.) -/
theorem C4_amended (kb vb : Bytes) (key v : Value)
    (hkey : decode_one kb = .ok (key, kb.length))
    (hval : decode_one vb = .ok (v, vb.length))
    (hhash : pyHashable key = true)
    (hkp : int5ProbeSafe kb = true)
    (hsize : kb.length + vb.length ≤ 11) :
    decode_one ((((kb.length + vb.length) <<< 4) ||| 0x0C) :: (kb ++ vb))
      = .ok (.object [(key, v)], 1 + (kb.length + vb.length)) := by
  have hkey' : decodeOneF (2 * kb.length + 1) kb = .ok (key, kb.length) := hkey
  have hval' : decodeOneF (2 * vb.length + 1) vb = .ok (v, vb.length) := hval
  have hk1 : 1 ≤ kb.length := decodeOneF_consumed_pos _ _ _ _ hkey'
  have hv1 : 1 ≤ vb.length := decodeOneF_consumed_pos _ _ _ _ hval'
  obtain ⟨htag, hsel⟩ := nibble_facts (kb.length + vb.length) (by omega) 12 (by decide)
  unfold decode_one
  rw [decodeOneF_succ]
  simp only [hsel, resolveSize_le11 _ _ hsize, htag, decodeBody_object]
  have hdrop1 : ((((kb.length + vb.length) <<< 4) ||| 0x0C) :: (kb ++ vb)).drop 1
      = kb ++ vb := rfl
  rw [hdrop1]
  have htake : (kb ++ vb).take (kb.length + vb.length) = kb ++ vb := by
    rw [← List.length_append, List.take_length]
  rw [htake]
  have hF : 2 * (((((kb.length + vb.length) <<< 4) ||| 0x0C) :: (kb ++ vb)).length)
      = (2 * (kb.length + vb.length) + 1) + 1 := by
    rw [List.length_cons, List.length_append]; omega
  rw [hF, decodePairsF_succ, if_neg (show ¬(kb.length + vb.length = 0) by omega)]
  have hkc : decodeOneF (2 * (kb.length + vb.length) + 1) (kb ++ vb)
      = .ok (key, kb.length) := by
    have hcl : decodeOneF (2 * (kb.length + vb.length) + 1) kb = .ok (key, kb.length) := by
      rw [decodeOneF_climb (2 * kb.length + 1) (2 * (kb.length + vb.length) + 1) kb
        (by omega) (by rw [hkey']; intro hq; cases hq)]
      exact hkey'
    exact decodeOneF_append _ kb vb key kb.length hcl (le_refl _) hkp
  simp only [hkc]
  rw [if_neg (show ¬(kb.length + vb.length ≤ kb.length) by omega)]
  rw [List.drop_left kb vb]
  have hvc : decodeOneF (2 * (kb.length + vb.length) + 1) vb = .ok (v, vb.length) := by
    rw [decodeOneF_climb (2 * vb.length + 1) (2 * (kb.length + vb.length) + 1) vb
      (by omega) (by rw [hval']; intro hq; cases hq)]
    exact hval'
  simp only [hvc]
  rw [if_neg (show ¬(pyHashable key = false) by rw [hhash]; intro hq; cases hq)]
  rw [if_neg (show ¬(pyMem key [] = true) by intro hq; cases hq)]
  rw [List.drop_length]
  rw [show kb.length + vb.length - kb.length - vb.length = 0 by omega]
  rw [decodePairsF_succ, if_pos rfl]
  rw [List.nil_append]
  rfl

/-- C4, witness for the amended claim: the Null key of the
counterexample object. -/
theorem C4_amended_witness :
    decode_one [0x00] = .ok (.null, 1) ∧ pyHashable .null = true ∧
    decode_one [0x2C, 0x00, 0x00] = .ok (.object [(.null, .null)], 3) :=
  ⟨rfl, rfl, C4_amended [0x00] [0x00] .null .null rfl rfl rfl rfl (by decide)⟩

/-- C7: an object payload that encodes the same Text key twice fails
with the duplicate-key error (the KeyError of line 136), whatever the
two values are: the payload is the exact concatenation of an encoding of
the key, a first value, the same key encoding again and a second value.
The probe-safety side conditions state that the two inner encodings do
not rely on bytes beyond their own end (automatic for every tag except
an Int5 with declared size below 2). -/
theorem C7_duplicate_key (kb vb1 vb2 : Bytes) (s : String) (v1 v2 : Value)
    (hk : decode_one kb = .ok (.text s, kb.length))
    (h1 : decode_one vb1 = .ok (v1, vb1.length))
    (h2 : decode_one vb2 = .ok (v2, vb2.length))
    (hkp : int5ProbeSafe kb = true)
    (h1p : int5ProbeSafe vb1 = true)
    (hsize : kb.length + (vb1.length + (kb.length + vb2.length)) ≤ 11) :
    decode_one ((((kb.length + (vb1.length + (kb.length + vb2.length))) <<< 4) ||| 0x0C)
      :: (kb ++ (vb1 ++ (kb ++ vb2)))) = .error .duplicateKey := by
  have hk' : decodeOneF (2 * kb.length + 1) kb = .ok (.text s, kb.length) := hk
  have h1' : decodeOneF (2 * vb1.length + 1) vb1 = .ok (v1, vb1.length) := h1
  have h2' : decodeOneF (2 * vb2.length + 1) vb2 = .ok (v2, vb2.length) := h2
  have hka : 1 ≤ kb.length := decodeOneF_consumed_pos _ _ _ _ hk'
  have h1a : 1 ≤ vb1.length := decodeOneF_consumed_pos _ _ _ _ h1'
  have h2a : 1 ≤ vb2.length := decodeOneF_consumed_pos _ _ _ _ h2'
  obtain ⟨htag, hsel⟩ :=
    nibble_facts (kb.length + (vb1.length + (kb.length + vb2.length))) (by omega) 12
      (by decide)
  unfold decode_one
  rw [decodeOneF_succ]
  simp only [hsel, resolveSize_le11 _ _ hsize, htag, decodeBody_object]
  have hdrop1 :
      ((((kb.length + (vb1.length + (kb.length + vb2.length))) <<< 4) ||| 0x0C)
        :: (kb ++ (vb1 ++ (kb ++ vb2)))).drop 1 = kb ++ (vb1 ++ (kb ++ vb2)) := rfl
  rw [hdrop1]
  have hplen : (kb ++ (vb1 ++ (kb ++ vb2))).length
      = kb.length + (vb1.length + (kb.length + vb2.length)) := by
    simp [List.length_append]
  have htake : (kb ++ (vb1 ++ (kb ++ vb2))).take
      (kb.length + (vb1.length + (kb.length + vb2.length)))
      = kb ++ (vb1 ++ (kb ++ vb2)) := by
    rw [← hplen, List.take_length]
  rw [htake]
  have hF : 2 * (((((kb.length + (vb1.length + (kb.length + vb2.length))) <<< 4) ||| 0x0C)
      :: (kb ++ (vb1 ++ (kb ++ vb2)))).length)
      = (2 * (kb.length + (vb1.length + (kb.length + vb2.length))) + 1) + 1 := by
    rw [List.length_cons, hplen]; omega
  rw [hF, decodePairsF_succ,
    if_neg (show ¬(kb.length + (vb1.length + (kb.length + vb2.length)) = 0) by omega)]
  have hkc1 : decodeOneF (2 * (kb.length + (vb1.length + (kb.length + vb2.length))) + 1)
      (kb ++ (vb1 ++ (kb ++ vb2))) = .ok (.text s, kb.length) := by
    have hcl : decodeOneF (2 * (kb.length + (vb1.length + (kb.length + vb2.length))) + 1)
        kb = .ok (.text s, kb.length) := by
      rw [decodeOneF_climb (2 * kb.length + 1) _ kb (by omega)
        (by rw [hk']; intro hq; cases hq)]
      exact hk'
    exact decodeOneF_append _ kb _ _ _ hcl (le_refl _) hkp
  simp only [hkc1]
  rw [if_neg (show ¬(kb.length + (vb1.length + (kb.length + vb2.length)) ≤ kb.length)
    by omega)]
  rw [List.drop_left kb (vb1 ++ (kb ++ vb2))]
  have hvc1 : decodeOneF (2 * (kb.length + (vb1.length + (kb.length + vb2.length))) + 1)
      (vb1 ++ (kb ++ vb2)) = .ok (v1, vb1.length) := by
    have hcl : decodeOneF (2 * (kb.length + (vb1.length + (kb.length + vb2.length))) + 1)
        vb1 = .ok (v1, vb1.length) := by
      rw [decodeOneF_climb (2 * vb1.length + 1) _ vb1 (by omega)
        (by rw [h1']; intro hq; cases hq)]
      exact h1'
    exact decodeOneF_append _ vb1 _ _ _ hcl (le_refl _) h1p
  simp only [hvc1]
  rw [if_neg (show ¬(pyHashable (.text s) = false) by intro hq; cases hq)]
  rw [if_neg (show ¬(pyMem (.text s) [] = true) by intro hq; cases hq)]
  rw [List.drop_left vb1 (kb ++ vb2)]
  rw [show kb.length + (vb1.length + (kb.length + vb2.length)) - kb.length - vb1.length
    = kb.length + vb2.length from by omega]
  rw [List.nil_append]
  rw [decodePairsF_succ, if_neg (show ¬(kb.length + vb2.length = 0) by omega)]
  have hkc2 : decodeOneF (2 * (kb.length + (vb1.length + (kb.length + vb2.length))))
      (kb ++ vb2) = .ok (.text s, kb.length) := by
    have hcl : decodeOneF (2 * (kb.length + (vb1.length + (kb.length + vb2.length))))
        kb = .ok (.text s, kb.length) := by
      rw [decodeOneF_climb (2 * kb.length + 1) _ kb (by omega)
        (by rw [hk']; intro hq; cases hq)]
      exact hk'
    exact decodeOneF_append _ kb _ _ _ hcl (le_refl _) hkp
  simp only [hkc2]
  rw [if_neg (show ¬(kb.length + vb2.length ≤ kb.length) by omega)]
  rw [List.drop_left kb vb2]
  have hvc2 : decodeOneF (2 * (kb.length + (vb1.length + (kb.length + vb2.length)))) vb2
      = .ok (v2, vb2.length) := by
    rw [decodeOneF_climb (2 * vb2.length + 1) _ vb2 (by omega)
      (by rw [h2']; intro hq; cases hq)]
    exact h2'
  simp only [hvc2]
  rw [if_neg (show ¬(pyHashable (.text s) = false) by intro hq; cases hq)]
  have hm : pyMem (.text s) [(.text s, v1)] = true := by simp [pyMem, pyEq]
  rw [if_pos hm]
  rfl

/-- C7, witness: keys "a", "a" with integer values 1 and 2. -/
theorem C7_duplicate_key_witness :
    decode_one [0x17, 0x61] = .ok (.text "a", 2) ∧
    decode_one [0x13, 0x31] = .ok (.int 1, 2) ∧
    decode_one [0x13, 0x32] = .ok (.int 2, 2) ∧
    decode_one [0x8C, 0x17, 0x61, 0x13, 0x31, 0x17, 0x61, 0x13, 0x32]
      = .error .duplicateKey :=
  ⟨rfl, rfl, rfl, C7_duplicate_key [0x17, 0x61] [0x13, 0x31] [0x13, 0x32] "a"
    (.int 1) (.int 2) rfl rfl rfl rfl rfl (by decide)⟩

/-- At two sufficient fuels the payload interpretation agrees. -/
theorem decodeBody_fuel_eq (f g t size : Nat) (tail : Bytes) (ht : t < 16)
    (hf : 2 * (tail.take size).length + 2 ≤ f)
    (hg : 2 * (tail.take size).length + 2 ≤ g) :
    decodeBody (decodeSeqF f) (decodePairsF f) t size tail
      = decodeBody (decodeSeqF g) (decodePairsF g) t size tail := by
  by_cases h11 : t = 11
  · subst h11
    rw [decodeBody_array, decodeBody_array]
    have h0 : decodeSeqF (2 * (tail.take size).length + 2) (tail.take size) size
        ≠ .error .fuelOut := (fuel_suff _).2.1 _ _ (le_refl _)
    rw [decodeSeqF_climb _ f _ _ hf h0, decodeSeqF_climb _ g _ _ hg h0]
  · by_cases h12 : t = 12
    · subst h12
      rw [decodeBody_object, decodeBody_object]
      have h0 : decodePairsF (2 * (tail.take size).length + 2) (tail.take size) size []
          ≠ .error .fuelOut := (fuel_suff _).2.2 _ _ _ (le_refl _)
      rw [decodePairsF_climb _ f _ _ _ hf h0, decodePairsF_climb _ g _ _ _ hg h0]
    · exact decodeBody_indep _ _ _ _ _ _ _ ht h11 h12

/-- Structure of a constructed header: its first byte carries the tag in
the low nibble, and prepending it to any buffer resolves to payload size
N with the header length as data start offset. -/
theorem headerBytes_facts (sel t N : Nat) (hB : Bytes)
    (h : headerBytes sel t N = some hB) :
    ∃ b0 hrest, hB = b0 :: hrest ∧ b0 &&& 0x0f = t ∧
      ∀ p : Bytes, resolveSize (b0 :: (hrest ++ p)) ((b0 &&& 0xf0) >>> 4)
        = .ok (N, hrest.length + 1) := by
  unfold headerBytes at h
  by_cases ht16 : t < 16
  case neg => rw [if_neg ht16] at h; cases h
  rw [if_pos ht16] at h
  by_cases hsel : sel ≤ 11
  · rw [if_pos hsel] at h
    by_cases hNs : N = sel
    · rw [if_pos hNs] at h
      injection h with h1
      subst h1
      refine ⟨_, [], rfl, (nibble_facts sel (by omega) t ht16).1, fun p => ?_⟩
      rw [(nibble_facts sel (by omega) t ht16).2, resolveSize_le11 _ _ hsel, hNs]
      rfl
    · rw [if_neg hNs] at h; cases h
  · rw [if_neg hsel] at h
    by_cases h12 : sel = 12
    · rw [if_pos h12] at h
      by_cases hN8 : N < 256
      · rw [if_pos hN8] at h
        injection h with h1
        subst h1
        refine ⟨_, [N], rfl, (nibble_facts 12 (by decide) t ht16).1, fun p => ?_⟩
        rw [(nibble_facts 12 (by decide) t ht16).2]
        unfold resolveSize
        rw [if_neg (by decide), if_pos rfl]
        rfl
      · rw [if_neg hN8] at h; cases h
    · rw [if_neg h12] at h
      by_cases h13 : sel = 13
      · rw [if_pos h13] at h
        by_cases hN16 : N < 65536
        · rw [if_pos hN16] at h
          injection h with h1
          subst h1
          refine ⟨_, [N / 256, N % 256], rfl,
            (nibble_facts 13 (by decide) t ht16).1, fun p => ?_⟩
          rw [(nibble_facts 13 (by decide) t ht16).2]
          unfold resolveSize
          rw [if_neg (by decide), if_neg (by decide), if_pos rfl, if_pos (by rfl)]
          have hbe : beBytes (List.drop 1 (List.take 3
              (((13 <<< 4) ||| t) :: ([N / 256, N % 256] ++ p)))) = N := by
            show beBytes [N / 256, N % 256] = N
            simp [beBytes, List.foldl]
            omega
          rw [hbe]
          rfl
        · rw [if_neg hN16] at h; cases h
      · rw [if_neg h13] at h
        by_cases h14 : sel = 14
        · rw [if_pos h14] at h
          by_cases hN32 : N < 4294967296
          · rw [if_pos hN32] at h
            injection h with h1
            subst h1
            refine ⟨_, [N / 16777216, N / 65536 % 256, N / 256 % 256, N % 256], rfl,
              (nibble_facts 14 (by decide) t ht16).1, fun p => ?_⟩
            rw [(nibble_facts 14 (by decide) t ht16).2]
            unfold resolveSize
            rw [if_neg (by decide), if_neg (by decide), if_neg (by decide), if_pos rfl,
              if_pos (by rfl)]
            have hbe : beBytes (List.drop 1 (List.take 5
                (((14 <<< 4) ||| t)
                  :: ([N / 16777216, N / 65536 % 256, N / 256 % 256, N % 256] ++ p)))) = N := by
              show beBytes [N / 16777216, N / 65536 % 256, N / 256 % 256, N % 256] = N
              simp [beBytes, List.foldl]
              omega
            rw [hbe]
            rfl
          · rw [if_neg hN32] at h; cases h
        · rw [if_neg h14] at h
          by_cases h15 : sel = 15
          · rw [if_pos h15] at h
            by_cases hN64 : N < 18446744073709551616
            · rw [if_pos hN64] at h
              injection h with h1
              subst h1
              refine ⟨_, [N / 72057594037927936, N / 281474976710656 % 256,
                N / 1099511627776 % 256, N / 4294967296 % 256, N / 16777216 % 256,
                N / 65536 % 256, N / 256 % 256, N % 256], rfl,
                (nibble_facts 15 (by decide) t ht16).1, fun p => ?_⟩
              rw [(nibble_facts 15 (by decide) t ht16).2]
              unfold resolveSize
              rw [if_neg (by decide), if_neg (by decide), if_neg (by decide),
                if_neg (by decide), if_pos rfl, if_pos (by rfl)]
              have hbe : beBytes (List.drop 1 (List.take 9
                  (((15 <<< 4) ||| t)
                    :: ([N / 72057594037927936, N / 281474976710656 % 256,
                      N / 1099511627776 % 256, N / 4294967296 % 256, N / 16777216 % 256,
                      N / 65536 % 256, N / 256 % 256, N % 256] ++ p)))) = N := by
                show beBytes [N / 72057594037927936, N / 281474976710656 % 256,
                  N / 1099511627776 % 256, N / 4294967296 % 256, N / 16777216 % 256,
                  N / 65536 % 256, N / 256 % 256, N % 256] = N
                simp [beBytes, List.foldl]
                omega
              rw [hbe]
              rfl
            · rw [if_neg hN64] at h; cases h
          · rw [if_neg h15] at h; cases h

/-- Decoding behind a constructed header factors through the payload
interpretation of the bytes after the header, at a canonical fuel. -/
theorem decode_one_header (sel t N : Nat) (hB p : Bytes)
    (h : headerBytes sel t N = some hB) :
    decode_one (hB ++ p) =
      (decodeBody (decodeSeqF (2 * (p.take N).length + 2))
        (decodePairsF (2 * (p.take N).length + 2)) t N p).map
        (fun v => (v, hB.length + N)) := by
  obtain ⟨b0, hrest, hBeq, htag, hres⟩ := headerBytes_facts sel t N hB h
  subst hBeq
  have ht16 : t < 16 := by rw [← htag]; exact and_fifteen_lt b0
  unfold decode_one
  rw [show (b0 :: hrest) ++ p = b0 :: (hrest ++ p) from rfl, decodeOneF_succ]
  simp only [hres p]
  rw [htag]
  have hdrp : (b0 :: (hrest ++ p)).drop (hrest.length + 1) = p := by
    rw [List.drop_succ_cons, List.drop_left]
  rw [hdrp]
  have hbound : 2 * (p.take N).length + 2 ≤ 2 * (b0 :: (hrest ++ p)).length := by
    rw [List.length_cons, List.length_append]
    have := List.length_take N p
    omega
  rw [decodeBody_fuel_eq (2 * (b0 :: (hrest ++ p)).length) (2 * (p.take N).length + 2)
    t N p ht16 hbound (le_refl _)]
  simp only [List.length_cons]

/-- C10: non-minimal size encodings are accepted, and the decoded result
is independent of the size-prefix width: two headers encoding the same
payload size N (under any representable selectors) followed by the same
payload bytes either both decode to the same value, consuming their own
header length plus N, or both fail with the same error. -/
theorem C10_wider (sel₁ sel₂ t N : Nat) (p h₁ h₂ : Bytes)
    (hh₁ : headerBytes sel₁ t N = some h₁) (hh₂ : headerBytes sel₂ t N = some h₂) :
    (∃ v, decode_one (h₁ ++ p) = .ok (v, h₁.length + N) ∧
          decode_one (h₂ ++ p) = .ok (v, h₂.length + N)) ∨
    (∃ e, decode_one (h₁ ++ p) = .error e ∧ decode_one (h₂ ++ p) = .error e) := by
  have k1 := decode_one_header sel₁ t N h₁ p hh₁
  have k2 := decode_one_header sel₂ t N h₂ p hh₂
  cases hb : decodeBody (decodeSeqF (2 * (p.take N).length + 2))
      (decodePairsF (2 * (p.take N).length + 2)) t N p with
  | ok v =>
    simp only [hb, emap_ok] at k1 k2
    exact Or.inl ⟨v, k1, k2⟩
  | error e =>
    simp only [hb, emap_error] at k1 k2
    exact Or.inr ⟨e, k1, k2⟩

/-- C10, witness: the Text value "a" behind its minimal 1-byte header
and behind a selector-12 header; the two concrete decodes are also shown
directly. -/
theorem C10_wider_witness :
    headerBytes 1 7 1 = some [0x17] ∧ headerBytes 12 7 1 = some [0xC7, 1] ∧
    ((∃ v, decode_one ([0x17] ++ [0x61]) = .ok (v, ([0x17] : Bytes).length + 1) ∧
        decode_one ([0xC7, 1] ++ [0x61]) = .ok (v, ([0xC7, 1] : Bytes).length + 1)) ∨
      (∃ e, decode_one ([0x17] ++ [0x61]) = .error e ∧
        decode_one ([0xC7, 1] ++ [0x61]) = .error e)) ∧
    decode_one [0x17, 0x61] = .ok (.text "a", 2) ∧
    decode_one [0xC7, 1, 0x61] = .ok (.text "a", 3) :=
  ⟨rfl, rfl, C10_wider 1 12 7 1 [0x61] [0x17] [0xC7, 1] rfl rfl, rfl, rfl⟩

end SqliteJsonb
